import Mathlib

/-!
Verification of the NAGPythonExamples repository (three notebook scripts):
* `NmfDemo`    — "Classifying web pages using non-negative matrix factorization"
  (fetch pages, tokenize, filter, build the words×documents count matrix,
  call `real_nmf`, write `wordcounts.txt`, assign categories).
* `ImpVolDemo` — "Fast Implied Volatilities" (root-finder loop around the
  `black_scholes` callback, `opt_imp_vol` calls).
* `SocpDemo`   — "Simple SOCP Example" (handle setup and one solver call).

Texts are embedded as `List Char`, matching Python `str` character by
character.  Machine floats holding exact small-integer counts are embedded as
`ℕ`; other numeric data as `ℚ`.  External library calls (the NAG routines,
`scipy.linalg.norm`, `urllib`) are oracles: their results are parameters of
the script-level definitions, and a fallible library call is a value of
`Except`.
-/

namespace NmfDemo

/-- Page text, embedded character by character (Python `str`). -/
abbrev Text := List Char

/-- The characters of Python's `string.punctuation`
(`!"#$%&'()*+,-./:;<=>?@[\]^_` + backquote + `{|}~`), i.e. the printable
ASCII punctuation: code points 33–47, 58–64, 91–96 and 123–126. -/
def isPunct (c : Char) : Bool :=
  (33 ≤ c.toNat && c.toNat ≤ 47) || (58 ≤ c.toNat && c.toNat ≤ 64) ||
  (91 ≤ c.toNat && c.toNat ≤ 96) || (123 ≤ c.toNat && c.toNat ≤ 126)

/-- The code points Python's `str.split()` (no separator argument) treats as
whitespace: 9–13, 28–31, 32, 133, 160, 5760, 8192–8202, 8232, 8233, 8239,
8287, 12288. -/
def isSpaceChar (c : Char) : Bool :=
  (9 ≤ c.toNat && c.toNat ≤ 13) || (28 ≤ c.toNat && c.toNat ≤ 32) ||
  c.toNat == 133 || c.toNat == 160 || c.toNat == 5760 ||
  (8192 ≤ c.toNat && c.toNat ≤ 8202) || c.toNat == 8232 ||
  c.toNat == 8233 || c.toNat == 8239 || c.toNat == 8287 || c.toNat == 12288

/-- `trans = str.maketrans(string.punctuation, ' '*len(string.punctuation))`
followed by `para.translate(trans)`: every punctuation character is replaced
by a single space, all other characters are kept. -/
def translatePunct (s : Text) : Text :=
  s.map (fun c => if isPunct c then ' ' else c)

/-- `str.lower()` applied character by character (the pages are ASCII-oriented
HTML; `Char.toLower` lowers the ASCII letters and keeps everything else). -/
def lowerText (s : Text) : Text :=
  s.map Char.toLower

/-- Python `str.split()`: split on runs of whitespace, dropping empty pieces.
Structural recursion on a fuel argument (the fuel is decremented once per
emitted token or skipped space, so `s.length` is always enough). -/
def splitWSAux : ℕ → Text → List Text
  | 0, _ => []
  | _, [] => []
  | fuel + 1, c :: cs =>
    if isSpaceChar c then splitWSAux fuel cs
    else (c :: List.takeWhile (fun d => !isSpaceChar d) cs) ::
      splitWSAux fuel (List.dropWhile (fun d => !isSpaceChar d) cs)

/-- Python `str.split()` on a text. -/
def splitWS (s : Text) : List Text := splitWSAux s.length s

/-- `isPre p s` holds when `p` is a prefix of `s` (the test a regex engine
performs at one candidate position for a literal pattern). -/
def isPre : Text → Text → Bool
  | [], _ => true
  | _ :: _, [] => false
  | p :: ps, c :: cs => p == c && isPre ps cs

/-- Scan `s` left to right for the first occurrence of the literal `pat`;
return the text before it and the text after it. -/
def splitFirst (pat : Text) : Text → Option (Text × Text)
  | [] => if pat = [] then some ([], []) else none
  | c :: cs =>
    if isPre pat (c :: cs) then some ([], (c :: cs).drop pat.length)
    else
      match splitFirst pat cs with
      | some (pre, post) => some (c :: pre, post)
      | none => none

/-- `re.findall(openT + '(.*?)' + closeT, s)` for literal tags: leftmost,
non-overlapping, lazy matches.  `.` does not match a newline, so a candidate
capture containing `'\n'` fails and scanning resumes after that open tag
(for the tags used here no new open tag can begin inside one).  Structural
recursion on fuel; `s.length` fuel always suffices since each step consumes
at least the open tag. -/
def findTagsAux (openT closeT : Text) : ℕ → Text → List Text
  | 0, _ => []
  | fuel + 1, s =>
    match splitFirst openT s with
    | none => []
    | some (_, rest) =>
      match splitFirst closeT rest with
      | none => []
      | some (para, rest2) =>
        if ('\n' : Char) ∈ para then findTagsAux openT closeT fuel rest
        else para :: findTagsAux openT closeT fuel rest2

/-- `re.findall` with literal open/close tags, as used by the notebook. -/
def findTags (openT closeT : Text) (s : Text) : List Text :=
  findTagsAux openT closeT s.length s

/-- The literal `<p>` of the paragraph regex. -/
def pOpen : Text := ['<', 'p', '>']

/-- The literal `</p>` of the paragraph regex. -/
def pClose : Text := ['<', '/', 'p', '>']

/-- The literal `<title>` of the title regex. -/
def titleOpen : Text := ['<', 't', 'i', 't', 'l', 'e', '>']

/-- The literal `</title>` of the title regex. -/
def titleClose : Text := ['<', '/', 't', 'i', 't', 'l', 'e', '>']

/-- `paras = re.findall(r'<p>(.*?)</p>', f1.read().decode().lower())`:
the paragraphs of the lowercased page content. -/
def pageParas (content : Text) : List Text :=
  findTags pOpen pClose (lowerText content)

/-- `title = re.findall(r'<title>(.*?)</title>', f2.read().decode())`:
the title matches of the raw (not lowercased) page content. -/
def pageTitle (content : Text) : List Text :=
  findTags titleOpen titleClose content

/-- One paragraph's tokens: `para.translate(trans).split()`. -/
def tokenizePara (para : Text) : List Text :=
  splitWS (translatePunct para)

/-- `pagewords` for one page: the concatenation, over the page's paragraphs,
of each paragraph's tokens (`pagewords += para.translate(trans).split()`). -/
def pageTokens (content : Text) : List Text :=
  ((pageParas content).map tokenizePara).flatten

/-- The loop body for one URL: the first fetch yields the paragraph tokens
(whose `Counter` is appended to `dicts`), the second fetch yields the title.
The two fetches may in principle return different content, so both are
parameters. -/
def processLink (c1 c2 : Text) : List Text × List Text :=
  (pageTokens c1, pageTitle c2)

/-- The sequence of `urllib.request.urlopen` calls the parsing loop makes:
two per link (`f1` for the paragraphs, then `f2` for the title), in input
order. -/
def fetchTrace (links : List Text) : List Text :=
  (links.map (fun l => [l, l])).flatten

/-- The explicit `stopwords` list of the notebook, in source order
(duplicates included). -/
def stopwords : List Text := ([
  "then", "that", "have", "with", "from", "they", "here", "there", "their",
  "would", "what", "which", "about", "know",
  "just", "time", "like", "make", "your", "year", "some", "good", "into",
  "people", "them", "other", "than", "look",
  "only", "over", "think", "also", "back", "after", "work", "first", "well",
  "even", "want", "because", "these",
  "most", "leave", "seem", "come", "little", "last", "long", "great", "high",
  "small", "large", "next", "early",
  "same", "this", "away", "down", "look", "make", "three", "came", "four",
  "please", "pretty", "soon", "under",
  "went", "white", "black", "give", "giving", "given", "gave", "knowing",
  "knew", "once", "round", "stop", "take",
  "taken", "took", "thank", "thanks", "walk", "walked", "always", "around",
  "been", "before", "best", "worst", "find",
  "found", "goes", "pull", "read", "right", "wrong", "tell", "telling",
  "told", "upon", "wish", "write", "written",
  "better", "carry", "carried", "full", "hold", "keep", "kept", "longer",
  "longest", "shall", "will", "begin",
  "beginning", "together", "today", "yesterday", "children", "ground",
  "hold", "holding", "morning", "afternoon",
  "never", "myself", "table", "water", "wind", "window", "ring", "rung",
  "except", "where", "while", "woman",
  "whilst", "were", "until", "thing", "things", "theirs", "monday",
  "tuesday", "wednesday", "thursday", "friday",
  "saturday", "sunday", "should", "shown", "shut", "another", "being",
  "does", "doing", "make", "makes", "more",
  "name", "names", "named", "through", "years", "used", "said", "saying",
  "says", "seen", "sees", "seeing",
  "using", "uses", "known", "left", "send", "sent", "choose", "choice",
  "choosing", "going", "gets", "below",
  "less", "least", "might", "href", "link", "https", "a939", "abbe",
  "ac30f6e24b3f", "ababa"] : List String).map String.toList

/-- `word.startswith(c)` for a single character `c`. -/
def startsWith (c : Char) (w : Text) : Bool :=
  match w with
  | [] => false
  | d :: _ => d == c

/-- The pound sign `'£'` of the first leading-character filter. -/
def pound : Char := '£'

/-- All distinct words collected from the downloaded pages (the set
`words = words | set(list(c.keys()))` accumulated over the pages; a Python
set has no specified order, so the model fixes the last-occurrence order of
`List.dedup` — every claim below is order-independent). -/
def allWords (docs : List Text) : List Text :=
  ((docs.map pageTokens).flatten).dedup

/-- `words = [word for word in words if not word in stopwords]`. -/
def filterStopwords (ws : List Text) : List Text :=
  ws.filter (fun w => !(stopwords.contains w))

/-- `words = [word for word in words if not len(word)<4]`. -/
def filterShort (ws : List Text) : List Text :=
  ws.filter (fun w => !(w.length < 4))

/-- The eleven leading-character filters, in source order:
`'£'`, then `'1'`, …, `'9'`, then `'0'`. -/
def filterLeading (ws : List Text) : List Text :=
  ((((((((((ws.filter (fun w => !(startsWith pound w))).filter
    (fun w => !(startsWith '1' w))).filter
    (fun w => !(startsWith '2' w))).filter
    (fun w => !(startsWith '3' w))).filter
    (fun w => !(startsWith '4' w))).filter
    (fun w => !(startsWith '5' w))).filter
    (fun w => !(startsWith '6' w))).filter
    (fun w => !(startsWith '7' w))).filter
    (fun w => !(startsWith '8' w))).filter
    (fun w => !(startsWith '9' w))).filter
    (fun w => !(startsWith '0' w))

/-- The word list that forms the data matrix: the three filtering stages
applied to the collected words, in source order. -/
def filteredWords (docs : List Text) : List Text :=
  filterLeading (filterShort (filterStopwords (allWords docs)))

/-- `freqs = [dic.get(word, 0) for dic in dicts]`: the counts of one word
across the documents, in input order (`dic.get(word, 0)` is the multiplicity
of `word` in that page's token list). -/
def docCounts (w : Text) (docs : List Text) : List ℕ :=
  docs.map (fun d => (pageTokens d).count w)

/-- The data matrix `a`: one row per filtered word (in `words` order), one
column per document (in input order).  The matrix is stored as `float64` in
the source, but every entry is an exact small integer count, embedded as
`ℕ`. -/
def dataMatrix (docs : List Text) : List (List ℕ) :=
  (filteredWords docs).map (fun w => docCounts w docs)

/-- Python `s.ljust(width, ' ')`: pad on the right with spaces up to `width`;
a string already at least `width` long is returned unchanged. -/
def pyLjust (s : Text) (width : ℕ) : Text :=
  s ++ List.replicate (width - s.length) ' '

/-- Python `s.center(width, ' ')`: CPython computes `marg = width - len(s)`
and puts `marg / 2 + (marg & width & 1)` fill characters on the left, the
rest on the right; a string already at least `width` long is unchanged. -/
def pyCenter (s : Text) (width : ℕ) : Text :=
  let marg := width - s.length
  let left := marg / 2 + (marg &&& width &&& 1)
  List.replicate left ' ' ++ s ++ List.replicate (marg - left) ' '

/-- The header line of `wordcounts.txt`:
`st = ' '*14` then `st += ('link ' + str(i+1)).ljust(8, ' ')` for each link. -/
def headerLine (nLinks : ℕ) : Text :=
  (List.range nLinks).foldl
    (fun st i => st ++ pyLjust ("link " ++ toString (i + 1)).toList 8)
    (List.replicate 14 ' ')

/-- One word's line of `wordcounts.txt`: `st = v.ljust(14, ' ')` then
`st += str(int(a[i,j])).center(8, ' ')` for each document `j` (the row of
the count matrix supplies `int(a[i,j])`, exact since the entries are small
integer counts). -/
def wordLine (v : Text) (row : List ℕ) : Text :=
  row.foldl (fun st cnt => st ++ pyCenter (toString cnt).toList 8)
    (pyLjust v 14)

/-- The lines printed to `wordcounts.txt`: the header, then one line per
word of the filtered word list, in order, each with that word's row of
counts. -/
def wordcountsLines (docs : List Text) : List Text :=
  headerLine docs.length ::
    (filteredWords docs).map (fun v => wordLine v (docCounts v docs))

/-- The script state after the `real_nmf` call: the data matrix `a`, the
factors `w` and `h` as the library returned them, the word list, titles and
links, and the values the remaining cells compute from them.  The float
matrices are embedded over `ℚ`. -/
structure NmfState where
  a : List (List ℚ)
  w : List (List ℚ)
  h : List (List ℚ)
  words : List Text
  titles : List Text
  links : List Text
  resnorm : Option ℚ
  topWords : List (List Text)
  categories : List ℕ

/-- Entrywise difference of two matrices (`a - w@h` reads its operands and
allocates a new array). -/
def matSub (x y : List (List ℚ)) : List (List ℚ) :=
  x.zipWith (fun r s => r.zipWith (fun u v => u - v) s) y

/-- Dot product of two rows. -/
def dotProd (r s : List ℚ) : ℚ :=
  (r.zipWith (fun u v => u * v) s).sum

/-- Matrix product (`w@h`). -/
def matMul (x y : List (List ℚ)) : List (List ℚ) :=
  x.map (fun r => y.transpose.map (fun col => dotProd r col))

/-- `resnorm = norm(a-w@h)/norm(a)`: `scipy.linalg.norm` is an external
library routine, passed in as the oracle `normFn`; the step stores the
quotient and changes nothing else. -/
def resnormStep (normFn : List (List ℚ) → ℚ) (s : NmfState) : NmfState :=
  { s with resnorm := some (normFn (matSub s.a (matMul s.w s.h)) / normFn s.a) }

/-- The sort key of the top-word listing: `w[words.index(x), ind]`. -/
def keyVal (s : NmfState) (x : Text) (ind : ℕ) : ℚ :=
  (s.w.getD (s.words.indexOf x) []).getD ind 0

/-- `tmp = sorted(words, key=..., reverse=True)` then `tmp[:10]`, for each
of the `k` columns: a stable descending sort of the word list by the key,
reading `w` and `words` and storing only the listing. -/
def topWordsStep (k : ℕ) (s : NmfState) : NmfState :=
  { s with topWords := (List.range k).map (fun i =>
      (s.words.mergeSort (fun x y => decide (keyVal s y i ≤ keyVal s x i))).take 10) }

/-- `category = 0 if h[0,i] > h[1,i] else 1` for each link index `i`:
reads `h` and the link list, stores only the category list. -/
def categoryStep (s : NmfState) : NmfState :=
  { s with categories := (List.range s.links.length).map (fun i =>
      if (s.h.getD 0 []).getD i 0 > (s.h.getD 1 []).getD i 0 then 0 else 1) }

/-- Everything the notebook runs after `real_nmf` returns: the residual-norm
cell, the top-word listing (with `k = 2`) and the categorisation loop, in
order. -/
def postFactorization (normFn : List (List ℚ) → ℚ) (s : NmfState) : NmfState :=
  categoryStep (topWordsStep 2 (resnormStep normFn s))

end NmfDemo

namespace ImpVolDemo

/-- The per-point fields of the `data` dict of the root-finder loop:
market price, strike, spot, time to maturity, rate. -/
structure OptData where
  p : ℚ
  k : ℚ
  s0 : ℚ
  t : ℚ
  r : ℚ

/-- The `black_scholes` callback.  The library call
`specfun.opt_bsm_price('C', [k], s0, [t], sigma, r, 0.0)` is external and
may raise; its outcome is the `libPrice` parameter (a 1×1 price matrix on
success).  The bare `except:` replaces the price with `np.zeros((1,1))`,
and the callback returns `price[0, 0] - data['p']`. -/
def black_scholes (libPrice : Except String (List (List ℚ)))
    (data : OptData) : ℚ :=
  let price : List (List ℚ) :=
    match libPrice with
    | Except.ok m => m
    | Except.error _ => [[0]]
  (price.getD 0 []).getD 0 0 - data.p

/-- The callback seen from its caller: it always returns normally (the bare
`except:` catches every exception), so its outcome is always `Except.ok`. -/
def black_scholesRun (libPrice : Except String (List (List ℚ)))
    (data : OptData) : Except String ℚ :=
  Except.ok (black_scholes libPrice data)

/-- One iteration of the root-finder loop acting on `errorcount`:
`roots.contfn_cntin` is external and may raise (outcome `rootResult`); on
success a negative volatility counts as a failure, on exception the
`except:` branch counts a failure and the loop continues. -/
def loopStep (rootResult : Except String ℚ) (errorcount : ℕ) : ℕ :=
  match rootResult with
  | Except.ok sigma => if sigma < 0 then errorcount + 1 else errorcount
  | Except.error _ => errorcount + 1

/-- The whole loop: fold of `loopStep` over the per-point root-finder
outcomes, starting from `errorcount = 0`. -/
def rootFinderLoop (results : List (Except String ℚ)) : ℕ :=
  results.foldl (fun c res => loopStep res c) 0

/-- The external library calls a notebook cell makes to obtain its numerical
result. -/
inductive LibCall where
  | contfnCntin (i : ℕ)
  | optImpVol (mode : ℕ)
  | realNmf
  | handleSolveSocpIpm
  deriving DecidableEq, Repr

/-- The root-finder cell's calls: `roots.contfn_cntin` once per data point
(`for i in range(n)`). -/
def rootFinderTrace (n : ℕ) : List LibCall :=
  (List.range n).map LibCall.contfnCntin

/-- The `n` of the implied-volatility notebook
(`n = 10000  # the number of volatilities we will be computing`). -/
def nPoints : ℕ := 10000

/-- The solver calls of the `opt_imp_vol` cells: one call per cell, with
`mode=2`, `mode=1`, `mode=0`. -/
def impVolTrace : List LibCall :=
  [LibCall.optImpVol 2, LibCall.optImpVol 1, LibCall.optImpVol 0]

end ImpVolDemo

namespace NmfDemo

/-- The factorization cell's calls: a single `real_nmf` call. -/
def nmfSolveTrace : List ImpVolDemo.LibCall := [ImpVolDemo.LibCall.realNmf]

end NmfDemo

namespace SocpDemo

/-- The SOCP notebook's solver cell: a single `handle_solve_socp_ipm` call
(`result = opt.handle_solve_socp_ipm(handle, io_manager=iom)`). -/
def socpSolveTrace : List ImpVolDemo.LibCall :=
  [ImpVolDemo.LibCall.handleSolveSocpIpm]

end SocpDemo

namespace NmfDemo

/-- A tiny concrete pair of documents used to exercise the pipeline. -/
def demoDocs : List Text :=
  ["<p>alpha beta alpha</p>".toList, "<p>beta toast</p>".toList]

/-- A tiny concrete page with a title, used to exercise the parser. -/
def demoPage : Text := "<p>Hi And bye</p><title>T</title>".toList

/-- Two concrete URLs. -/
def demoLinks : List Text := ["u1".toList, "u2".toList]

/-- A tiny concrete post-factorization state (the `h` columns for the second
link tie at `1`). -/
def demoState : NmfState :=
  { a := [[1]], w := [[1], [0]], h := [[2, 1], [1, 1]],
    words := ["alpha".toList], titles := [], links := demoLinks,
    resnorm := none, topWords := [], categories := [] }

end NmfDemo

namespace ImpVolDemo

/-- A concrete `data` dict for one point. -/
def demoOpt : OptData := { p := 5, k := 272, s0 := 260, t := 1, r := 1 }

end ImpVolDemo

namespace NmfDemo

/-- Every token produced by the splitter is nonempty and consists of
non-whitespace characters of the input. -/
theorem splitWSAux_mem {fuel : ℕ} {s t : Text} (ht : t ∈ splitWSAux fuel s) :
    t ≠ [] ∧ ∀ c ∈ t, isSpaceChar c = false ∧ c ∈ s := by
  induction fuel generalizing s with
  | zero => simp [splitWSAux] at ht
  | succ fuel ih =>
    cases s with
    | nil => simp [splitWSAux] at ht
    | cons ch cs =>
      by_cases hsp : isSpaceChar ch
      · rw [splitWSAux, if_pos hsp] at ht
        obtain ⟨hne, hall⟩ := ih ht
        exact ⟨hne, fun c hc =>
          ⟨(hall c hc).1, List.mem_cons_of_mem _ (hall c hc).2⟩⟩
      · rw [splitWSAux, if_neg hsp] at ht
        rcases List.mem_cons.mp ht with rfl | ht
        · refine ⟨by simp, fun c hc => ?_⟩
          rcases List.mem_cons.mp hc with rfl | hc
          · exact ⟨by simpa using hsp, List.mem_cons_self _ _⟩
          · refine ⟨?_, List.mem_cons_of_mem _ ((List.takeWhile_sublist _).subset hc)⟩
            have := List.mem_takeWhile_imp hc
            simpa using this
        · obtain ⟨hne, hall⟩ := ih ht
          exact ⟨hne, fun c hc =>
            ⟨(hall c hc).1,
             List.mem_cons_of_mem _ ((List.dropWhile_sublist _).subset (hall c hc).2)⟩⟩

/-- Every token of `splitWS s` is nonempty and consists of non-whitespace
characters of `s`. -/
theorem splitWS_mem {s t : Text} (ht : t ∈ splitWS s) :
    t ≠ [] ∧ ∀ c ∈ t, isSpaceChar c = false ∧ c ∈ s :=
  splitWSAux_mem ht

/-- A successful prefix test exhibits the rest of the text. -/
theorem isPre_exists {p s : Text} (h : isPre p s = true) : ∃ t, s = p ++ t := by
  induction p generalizing s with
  | nil => exact ⟨s, rfl⟩
  | cons a ps ih =>
    cases s with
    | nil => simp [isPre] at h
    | cons b bs =>
      rw [isPre, Bool.and_eq_true, beq_iff_eq] at h
      obtain ⟨rfl, h2⟩ := h
      obtain ⟨t, rfl⟩ := ih h2
      exact ⟨t, rfl⟩

/-- A successful first-occurrence split decomposes the text. -/
theorem splitFirst_eq {pat : Text} : ∀ {s pre post : Text},
    splitFirst pat s = some (pre, post) → s = pre ++ pat ++ post := by
  intro s
  induction s with
  | nil =>
    intro pre post h
    rw [splitFirst] at h
    by_cases hp : pat = ([] : Text)
    · rw [if_pos hp] at h
      obtain ⟨rfl, rfl⟩ := Prod.mk.injEq .. ▸ Option.some.injEq .. ▸ h
      simp [hp]
    · rw [if_neg hp] at h
      exact absurd h (by simp)
  | cons ch cs ih =>
    intro pre post h
    rw [splitFirst] at h
    by_cases hpre : isPre pat (ch :: cs) = true
    · rw [if_pos hpre] at h
      obtain ⟨t, hts⟩ := isPre_exists hpre
      have h1 : pre = ([] : Text) ∧ (ch :: cs).drop pat.length = post := by
        constructor
        · exact (Prod.mk.injEq .. ▸ Option.some.injEq .. ▸ h).1.symm
        · exact (Prod.mk.injEq .. ▸ Option.some.injEq .. ▸ h).2
      obtain ⟨rfl, hdrop⟩ := h1
      rw [hts, List.drop_left] at hdrop
      rw [hts, ← hdrop]
      simp
    · rw [if_neg hpre] at h
      rcases h2 : splitFirst pat cs with _ | ⟨pre2, post2⟩
      · rw [h2] at h; exact absurd h (by simp)
      · rw [h2] at h
        have h3 : pre = ch :: pre2 ∧ post2 = post := by
          constructor
          · exact (Prod.mk.injEq .. ▸ Option.some.injEq .. ▸ h).1.symm
          · exact (Prod.mk.injEq .. ▸ Option.some.injEq .. ▸ h).2
        obtain ⟨rfl, rfl⟩ := h3
        have := ih h2
        rw [List.cons_append, List.cons_append, ← this]

/-- Every capture the tag finder returns occurs between an open tag and a
close tag of the scanned text. -/
theorem mem_findTagsAux {o c : Text} : ∀ {fuel : ℕ} {s para : Text},
    para ∈ findTagsAux o c fuel s →
    ∃ u v, s = u ++ o ++ para ++ c ++ v := by
  intro fuel
  induction fuel with
  | zero => intro s para h; simp [findTagsAux] at h
  | succ fuel ih =>
    intro s para h
    rw [findTagsAux] at h
    rcases h1 : splitFirst o s with _ | ⟨pre1, rest⟩
    · rw [h1] at h; simp at h
    · rw [h1] at h
      dsimp only at h
      rcases h2 : splitFirst c rest with _ | ⟨para0, rest2⟩
      · rw [h2] at h; simp at h
      · rw [h2] at h
        dsimp only at h
        have hs : s = pre1 ++ o ++ rest := splitFirst_eq h1
        have hr : rest = para0 ++ c ++ rest2 := splitFirst_eq h2
        by_cases hnl : ('\n' : Char) ∈ para0
        · rw [if_pos hnl] at h
          obtain ⟨u, v, huv⟩ := ih h
          exact ⟨pre1 ++ o ++ u, v, by rw [hs, huv]; simp [List.append_assoc]⟩
        · rw [if_neg hnl] at h
          rcases List.mem_cons.mp h with rfl | h
          · exact ⟨pre1, rest2, by rw [hs, hr]; simp [List.append_assoc]⟩
          · obtain ⟨u, v, huv⟩ := ih h
            exact ⟨pre1 ++ o ++ para0 ++ c ++ u, v,
              by rw [hs, hr, huv]; simp [List.append_assoc]⟩

/-- Every capture of `findTags` occurs between the tags in the text. -/
theorem mem_findTags {o c s para : Text} (h : para ∈ findTags o c s) :
    ∃ u v, s = u ++ o ++ para ++ c ++ v :=
  mem_findTagsAux h

/-- `getD` through `map` below the length. -/
theorem getD_map_lt {α β : Type} (f : α → β) (l : List α) (i : ℕ) (d : α)
    (e : β) (h : i < l.length) : (l.map f).getD i e = f (l.getD i d) := by
  rw [List.getD_eq_getElem _ _ (by simpa using h), List.getD_eq_getElem _ _ h,
    List.getElem_map]

/-- Appending step by step in a fold is appending the concatenation. -/
theorem foldl_append_flatten {α : Type} (f : α → Text) :
    ∀ (l : List α) (init : Text),
      l.foldl (fun st x => st ++ f x) init = init ++ (l.map f).flatten := by
  intro l
  induction l with
  | nil => intro init; simp
  | cons a as ih => intro init; simp [ih, List.append_assoc]

/-- Each character of the translated text is the translation of a character
of the original. -/
theorem mem_translatePunct {s : Text} {c : Char} (h : c ∈ translatePunct s) :
    ∃ d ∈ s, c = if isPunct d then ' ' else d := by
  obtain ⟨d, hd, hc⟩ := List.mem_map.mp h
  exact ⟨d, hd, hc.symm⟩

/-- The leading-character filters select a sub-list. -/
theorem filterLeading_sublist (ws : List Text) :
    (filterLeading ws).Sublist ws := by
  unfold filterLeading
  refine List.Sublist.trans (List.filter_sublist _) ?_
  refine List.Sublist.trans (List.filter_sublist _) ?_
  refine List.Sublist.trans (List.filter_sublist _) ?_
  refine List.Sublist.trans (List.filter_sublist _) ?_
  refine List.Sublist.trans (List.filter_sublist _) ?_
  refine List.Sublist.trans (List.filter_sublist _) ?_
  refine List.Sublist.trans (List.filter_sublist _) ?_
  refine List.Sublist.trans (List.filter_sublist _) ?_
  refine List.Sublist.trans (List.filter_sublist _) ?_
  refine List.Sublist.trans (List.filter_sublist _) ?_
  exact List.filter_sublist _

/-- The whole filtering chain selects a sub-list of the collected words. -/
theorem filteredWords_sublist (docs : List Text) :
    (filteredWords docs).Sublist (allWords docs) := by
  unfold filteredWords
  refine List.Sublist.trans (filterLeading_sublist _) ?_
  refine List.Sublist.trans (List.filter_sublist _) ?_
  exact List.filter_sublist _

/-- The filtered word list has no duplicates. -/
theorem filteredWords_nodup (docs : List Text) :
    (filteredWords docs).Nodup :=
  List.Nodup.sublist (filteredWords_sublist docs) (List.nodup_dedup _)

/-- In a duplicate-free list, a member occurs exactly once. -/
theorem count_one_of_nodup_mem : ∀ {l : List Text} {a : Text},
    l.Nodup → a ∈ l → l.count a = 1 := by
  intro l
  induction l with
  | nil => intro a _ ha; simp at ha
  | cons b bs ih =>
    intro a hn ha
    obtain ⟨hb, hbs⟩ := List.nodup_cons.mp hn
    rcases List.mem_cons.mp ha with rfl | ha
    · have hz : bs.count a = 0 := List.count_eq_zero.mpr hb
      simp [List.count_cons, hz]
    · have hup : b ≠ a := fun hba => hb (hba ▸ ha)
      simp [List.count_cons, hup, ih hbs ha]

/-- Each URL occurs in the fetch trace twice as often as in the link list. -/
theorem count_fetchTrace (links : List Text) (u : Text) :
    (fetchTrace links).count u = 2 * links.count u := by
  induction links with
  | nil => simp [fetchTrace]
  | cons l ls ih =>
    have hstep : fetchTrace (l :: ls) = l :: l :: fetchTrace ls := by
      simp [fetchTrace]
    by_cases hl : l = u
    · subst hl
      simp [hstep, List.count_cons, ih]
      omega
    · simp [hstep, List.count_cons, hl, ih]

/-- Membership in the token list of a page: no whitespace or punctuation
characters survive, and every character comes from the lowercased page. -/
theorem pageTokens_chars {content tok : Text} (htok : tok ∈ pageTokens content)
    {c : Char} (hc : c ∈ tok) :
    isPunct c = false ∧ isSpaceChar c = false ∧ c ∈ lowerText content := by
  obtain ⟨toks, htoks, htokmem⟩ := List.mem_flatten.mp htok
  obtain ⟨para, hpara, rfl⟩ := List.mem_map.mp htoks
  obtain ⟨-, hall⟩ := splitWS_mem htokmem
  obtain ⟨hcs, hcmem⟩ := hall c hc
  obtain ⟨d, hd, hcd⟩ := mem_translatePunct hcmem
  have hdnp : isPunct d = false := by
    by_contra hnp
    have : c = ' ' := by
      rw [hcd, if_pos (by revert hnp; cases isPunct d <;> simp)]
    rw [this] at hcs
    simp [isSpaceChar] at hcs
  have hcd2 : c = d := by rw [hcd, if_neg (by simp [hdnp])]
  subst hcd2
  obtain ⟨u, v, huv⟩ := mem_findTags hpara
  refine ⟨hdnp, hcs, ?_⟩
  rw [huv]
  simp only [List.mem_append]
  tauto

end NmfDemo

/-- C1: for every kept (filtered) word placed at row `i` and every document
`j` of the input list, the `(i,j)` entry of the data matrix is the number of
occurrences of that word among the tokens extracted from document `j` (and
`0` when the word does not occur there); the matrix has one row per filtered
word, every row has one column per document in input order, the entries are
counts in `ℕ` (hence non-negative integers), and the rows are distinct
words. -/
theorem C1_data_matrix_counts (docs : List NmfDemo.Text) (i j : ℕ)
    (hi : i < (NmfDemo.filteredWords docs).length) (hj : j < docs.length) :
    ((NmfDemo.dataMatrix docs).getD i []).getD j 0
        = (NmfDemo.pageTokens (docs.getD j [])).count
            ((NmfDemo.filteredWords docs).getD i [])
    ∧ (((NmfDemo.filteredWords docs).getD i [])
          ∉ NmfDemo.pageTokens (docs.getD j []) →
        ((NmfDemo.dataMatrix docs).getD i []).getD j 0 = 0)
    ∧ (NmfDemo.dataMatrix docs).length = (NmfDemo.filteredWords docs).length
    ∧ (∀ row ∈ NmfDemo.dataMatrix docs, row.length = docs.length)
    ∧ (NmfDemo.filteredWords docs).Nodup := by
  have hrow : (NmfDemo.dataMatrix docs).getD i []
      = NmfDemo.docCounts ((NmfDemo.filteredWords docs).getD i []) docs := by
    rw [NmfDemo.dataMatrix, NmfDemo.getD_map_lt _ _ i [] [] hi]
  have hentry : ((NmfDemo.dataMatrix docs).getD i []).getD j 0
      = (NmfDemo.pageTokens (docs.getD j [])).count
          ((NmfDemo.filteredWords docs).getD i []) := by
    rw [hrow, NmfDemo.docCounts, NmfDemo.getD_map_lt _ _ j [] 0 hj]
  refine ⟨hentry, ?_, by simp [NmfDemo.dataMatrix], ?_, NmfDemo.filteredWords_nodup docs⟩
  · intro hnot
    rw [hentry]
    exact List.count_eq_zero.mpr hnot
  · intro row hrowmem
    obtain ⟨w, -, rfl⟩ := List.mem_map.mp hrowmem
    simp [NmfDemo.docCounts]

/-- C1 witness: on the concrete two-document corpus, the `(0,0)` entry is
the count of the row-0 word in document 0's tokens. -/
theorem C1_data_matrix_counts_witness :
    ((NmfDemo.dataMatrix NmfDemo.demoDocs).getD 0 []).getD 0 0
        = (NmfDemo.pageTokens (NmfDemo.demoDocs.getD 0 [])).count
            ((NmfDemo.filteredWords NmfDemo.demoDocs).getD 0 [])
    ∧ (NmfDemo.filteredWords NmfDemo.demoDocs).Nodup :=
  ⟨(C1_data_matrix_counts NmfDemo.demoDocs 0 0 (by decide) (by decide)).1,
   (C1_data_matrix_counts NmfDemo.demoDocs 0 0 (by decide) (by decide)).2.2.2.2⟩

/-- C2: a distinct collected word is kept for the data matrix iff it is not
in the stopword list, has at least 4 characters, and starts neither with
`'£'` nor with a decimal digit; moreover the filtering only removes words
(the kept list is a sub-list of the collected list). -/
theorem C2_word_filtering (docs : List NmfDemo.Text) (w : NmfDemo.Text) :
    (w ∈ NmfDemo.filteredWords docs ↔
      w ∈ NmfDemo.allWords docs ∧
      w ∉ NmfDemo.stopwords ∧
      4 ≤ w.length ∧
      NmfDemo.startsWith NmfDemo.pound w = false ∧
      (∀ d ∈ ['0', '1', '2', '3', '4', '5', '6', '7', '8', '9'],
        NmfDemo.startsWith d w = false))
    ∧ (NmfDemo.filteredWords docs).Sublist (NmfDemo.allWords docs) := by
  refine ⟨?_, NmfDemo.filteredWords_sublist docs⟩
  simp only [NmfDemo.filteredWords, NmfDemo.filterLeading, NmfDemo.filterShort,
    NmfDemo.filterStopwords, List.mem_filter, List.forall_mem_cons,
    List.forall_mem_nil, and_true]
  simp only [Bool.not_eq_true', Bool.not_eq_true, List.elem_eq_mem,
    decide_eq_false_iff_not, Nat.not_lt, decide_eq_true_eq]
  tauto

/-- C5: tokenization replaces every ASCII punctuation character of a
paragraph by a single space (position by position, length preserved) and
splits the result on whitespace, so no counted token contains a punctuation
character, and every character of every counted token comes from the
lowercased page content. -/
theorem C5_tokenization (content : NmfDemo.Text) :
    (∀ para : NmfDemo.Text, (NmfDemo.translatePunct para).length = para.length
      ∧ NmfDemo.tokenizePara para = NmfDemo.splitWS (NmfDemo.translatePunct para)
      ∧ ∀ i : ℕ, (NmfDemo.translatePunct para).getD i ' '
          = if NmfDemo.isPunct (para.getD i ' ') then ' ' else para.getD i ' ')
    ∧ (∀ tok ∈ NmfDemo.pageTokens content, ∀ c ∈ tok,
        NmfDemo.isPunct c = false ∧ NmfDemo.isSpaceChar c = false
          ∧ c ∈ NmfDemo.lowerText content) := by
  constructor
  · intro para
    refine ⟨by simp [NmfDemo.translatePunct], rfl, ?_⟩
    intro i
    by_cases hil : i < para.length
    · rw [NmfDemo.translatePunct, List.getD_eq_getElem _ _ (by simpa using hil),
        List.getD_eq_getElem _ _ hil, List.getElem_map]
    · rw [List.getD_eq_default _ _ (by simpa [NmfDemo.translatePunct] using Nat.le_of_not_lt hil),
        List.getD_eq_default _ _ (Nat.le_of_not_lt hil)]
      simp [NmfDemo.isPunct]
  · intro tok htok c hc
    exact NmfDemo.pageTokens_chars htok hc

/-- C5 witness: on a concrete page, the token `"hi"` of the first paragraph
contains the non-punctuation character `'h'` taken from the lowercased
content. -/
theorem C5_tokenization_witness :
    NmfDemo.isPunct 'h' = false ∧ NmfDemo.isSpaceChar 'h' = false
      ∧ 'h' ∈ NmfDemo.lowerText NmfDemo.demoPage :=
  (C5_tokenization NmfDemo.demoPage).2 "hi".toList (by decide) 'h' (by decide)

/-- C10: word counts are computed only from text inside `<p>…</p>` tags of
each lowercased page (each extracted paragraph occurs between an open and a
close paragraph tag of the lowercased content, and the page's tokens are
exactly the tokens of those paragraphs); each URL of a duplicate-free link
list is fetched exactly twice; and the loop's word data is independent of
the content the title fetch returns. -/
theorem C10_paragraphs_and_fetches :
    (∀ content : NmfDemo.Text, ∀ para ∈ NmfDemo.pageParas content,
      ∃ u v, NmfDemo.lowerText content
        = u ++ NmfDemo.pOpen ++ para ++ NmfDemo.pClose ++ v)
    ∧ (∀ (links : List NmfDemo.Text) (u : NmfDemo.Text),
        links.Nodup → u ∈ links → (NmfDemo.fetchTrace links).count u = 2)
    ∧ (∀ c1 c2 c2q : NmfDemo.Text,
        (NmfDemo.processLink c1 c2).1 = (NmfDemo.processLink c1 c2q).1
        ∧ (NmfDemo.processLink c1 c2).1 = NmfDemo.pageTokens c1
        ∧ (NmfDemo.processLink c1 c2).2 = NmfDemo.pageTitle c2) := by
  refine ⟨?_, ?_, ?_⟩
  · intro content para hpara
    exact NmfDemo.mem_findTags hpara
  · intro links u hnodup hu
    rw [NmfDemo.count_fetchTrace, NmfDemo.count_one_of_nodup_mem hnodup hu]
  · intro c1 c2 c2q
    exact ⟨rfl, rfl, rfl⟩

/-- C10 witness: on the concrete page the extracted paragraph sits between
the tags, and the first demo URL occurs exactly twice in the fetch trace. -/
theorem C10_paragraphs_and_fetches_witness :
    (∃ u v, NmfDemo.lowerText NmfDemo.demoPage
      = u ++ NmfDemo.pOpen ++ "hi and bye".toList ++ NmfDemo.pClose ++ v)
    ∧ (NmfDemo.fetchTrace NmfDemo.demoLinks).count ("u1".toList) = 2 :=
  ⟨C10_paragraphs_and_fetches.1 NmfDemo.demoPage "hi and bye".toList (by decide),
   C10_paragraphs_and_fetches.2.1 NmfDemo.demoLinks "u1".toList (by decide) (by decide)⟩

/-- C6: the `wordcounts.txt` output consists of a header line carrying one
8-character left-justified `link <i+1>` label per document, followed by
exactly one line per filtered word; each word line is the word
left-justified in a 14-character field followed by, for each document in
input order, that word's count rendered as a decimal integer centered in an
8-character field. -/
theorem C6_wordcounts_format (docs : List NmfDemo.Text) :
    (NmfDemo.wordcountsLines docs).length
        = (NmfDemo.filteredWords docs).length + 1
    ∧ (NmfDemo.wordcountsLines docs).getD 0 []
        = List.replicate 14 ' '
            ++ ((List.range docs.length).map
                  (fun i => NmfDemo.pyLjust ("link " ++ toString (i + 1)).toList 8)).flatten
    ∧ (∀ (v : NmfDemo.Text) (row : List ℕ),
        NmfDemo.wordLine v row
          = NmfDemo.pyLjust v 14
              ++ (row.map (fun cnt => NmfDemo.pyCenter (toString cnt).toList 8)).flatten)
    ∧ (∀ i : ℕ, i < (NmfDemo.filteredWords docs).length →
        (NmfDemo.wordcountsLines docs).getD (i + 1) []
          = NmfDemo.pyLjust ((NmfDemo.filteredWords docs).getD i []) 14
              ++ ((NmfDemo.docCounts ((NmfDemo.filteredWords docs).getD i []) docs).map
                    (fun cnt => NmfDemo.pyCenter (toString cnt).toList 8)).flatten) := by
  refine ⟨by simp [NmfDemo.wordcountsLines], ?_, ?_, ?_⟩
  · show NmfDemo.headerLine docs.length = _
    rw [NmfDemo.headerLine, NmfDemo.foldl_append_flatten]
  · intro v row
    rw [NmfDemo.wordLine, NmfDemo.foldl_append_flatten]
  · intro i hi
    rw [NmfDemo.wordcountsLines, List.getD_cons_succ,
      NmfDemo.getD_map_lt _ _ i [] [] hi, NmfDemo.wordLine,
      NmfDemo.foldl_append_flatten]

/-- C6 witness: on the concrete corpus, the line after the header is the
row-0 word's formatted line. -/
theorem C6_wordcounts_format_witness :
    (NmfDemo.wordcountsLines NmfDemo.demoDocs).getD 1 []
      = NmfDemo.pyLjust ((NmfDemo.filteredWords NmfDemo.demoDocs).getD 0 []) 14
          ++ ((NmfDemo.docCounts ((NmfDemo.filteredWords NmfDemo.demoDocs).getD 0 [])
                NmfDemo.demoDocs).map
                (fun cnt => NmfDemo.pyCenter (toString cnt).toList 8)).flatten :=
  (C6_wordcounts_format NmfDemo.demoDocs).2.2.2 0 (by decide)

/-- C7: after the factorization call returns, the remaining steps (residual
norm, top-word listing, categorisation) never modify the data matrix `a`,
the features matrix `w`, the coefficients matrix `h`, the word list, the
titles or the links: the state after all post-factorization steps carries
them unchanged, so the factors displayed are exactly those the library
returned. -/
theorem C7_factors_unmodified (normFn : List (List ℚ) → ℚ)
    (s : NmfDemo.NmfState) :
    (NmfDemo.postFactorization normFn s).a = s.a
    ∧ (NmfDemo.postFactorization normFn s).w = s.w
    ∧ (NmfDemo.postFactorization normFn s).h = s.h
    ∧ (NmfDemo.postFactorization normFn s).words = s.words
    ∧ (NmfDemo.postFactorization normFn s).titles = s.titles
    ∧ (NmfDemo.postFactorization normFn s).links = s.links := by
  refine ⟨rfl, rfl, rfl, rfl, rfl, rfl⟩

/-- C9: article `i` is assigned category `0` exactly when `h[0,i] > h[1,i]`,
and category `1` otherwise; in particular, equal coefficients give
category `1`. -/
theorem C9_category_assignment (s : NmfDemo.NmfState) (i : ℕ)
    (hi : i < s.links.length) :
    ((NmfDemo.categoryStep s).categories.getD i 2
        = if (s.h.getD 0 []).getD i 0 > (s.h.getD 1 []).getD i 0 then 0 else 1)
    ∧ ((NmfDemo.categoryStep s).categories.getD i 2 = 0
        ↔ (s.h.getD 0 []).getD i 0 > (s.h.getD 1 []).getD i 0)
    ∧ ((s.h.getD 0 []).getD i 0 = (s.h.getD 1 []).getD i 0 →
        (NmfDemo.categoryStep s).categories.getD i 2 = 1) := by
  have hrange : (List.range s.links.length).getD i 0 = i := by
    rw [List.getD_eq_getElem _ _ (by simpa using hi)]
    exact List.getElem_range _ _
  have hval : (NmfDemo.categoryStep s).categories.getD i 2
      = if (s.h.getD 0 []).getD i 0 > (s.h.getD 1 []).getD i 0 then 0 else 1 := by
    show ((List.range s.links.length).map _).getD i 2 = _
    rw [NmfDemo.getD_map_lt _ _ i 0 2 (by simpa using hi), hrange]
  refine ⟨hval, ?_, ?_⟩
  · rw [hval]
    by_cases hgt : (s.h.getD 0 []).getD i 0 > (s.h.getD 1 []).getD i 0
    · simp [hgt]
    · simp [hgt]
  · intro heq
    rw [hval, if_neg (by rw [heq]; exact lt_irrefl _)]

/-- C9 witness: in the concrete state the two coefficients of link 1 are
both `1`, and the assigned category is `1`. -/
theorem C9_category_assignment_witness :
    (NmfDemo.categoryStep NmfDemo.demoState).categories.getD 1 2 = 1 :=
  (C9_category_assignment NmfDemo.demoState 1 (by decide)).2.2 (by decide)

/-- C8: if the Black-Scholes pricing routine raises any exception inside the
`black_scholes` callback, the callback does not propagate it: it substitutes
the zero price matrix and returns `0` minus the target market price, so the
caller always receives an ordinary value. -/
theorem C8_callback_swallows_exception (e : String) (d : ImpVolDemo.OptData) :
    ImpVolDemo.black_scholes (Except.error e) d = 0 - d.p
    ∧ ImpVolDemo.black_scholesRun (Except.error e) d = Except.ok (0 - d.p) :=
  ⟨rfl, rfl⟩

/-- C3 counterexample: a library exception inside `black_scholes` does not
propagate out of the script code — on a concrete failing pricing call the
callback returns an ordinary value rather than re-raising the exception. -/
theorem C3_counterexample :
    ImpVolDemo.black_scholesRun (Except.error "NagValueError") ImpVolDemo.demoOpt
      ≠ Except.error "NagValueError" := by
  simp [ImpVolDemo.black_scholesRun]

/-- C3 (amended): the implied-volatility script does handle failures itself:
the `black_scholes` callback catches every exception of the pricing routine
and always returns an ordinary value (the zero-price difference on
failure), and the root-finder loop catches every exception of the root
finder, increments its error count, and continues; a negative root also
counts as a failure. -/
theorem C3_amended_error_handling :
    (∀ (lib : Except String (List (List ℚ))) (d : ImpVolDemo.OptData),
      ImpVolDemo.black_scholesRun lib d
        = Except.ok (ImpVolDemo.black_scholes lib d))
    ∧ (∀ (e : String) (c : ℕ),
        ImpVolDemo.loopStep (Except.error e) c = c + 1)
    ∧ (∀ (sigma : ℚ) (c : ℕ),
        ImpVolDemo.loopStep (Except.ok sigma) c
          = if sigma < 0 then c + 1 else c) :=
  ⟨fun _ _ => rfl, fun _ _ => rfl, fun _ _ => rfl⟩

/-- C4 counterexample: the implied volatilities of the root-finder cell are
not obtained by a single external call — with the notebook's `n = 10000`
data points, the cell performs 10000 `contfn_cntin` calls, not 1. -/
theorem C4_counterexample :
    ¬ (ImpVolDemo.rootFinderTrace ImpVolDemo.nPoints).length = 1 := by
  simp [ImpVolDemo.rootFinderTrace, ImpVolDemo.nPoints]

/-- C4 (amended): the factorization and the SOCP solution are each obtained
by a single external solver call; the implied volatilities are obtained by
one root-finder call per data point in the naive cell, and by one
`opt_imp_vol` call per accuracy mode (three in all) in the remaining cells. -/
theorem C4_amended_call_counts :
    NmfDemo.nmfSolveTrace.length = 1
    ∧ SocpDemo.socpSolveTrace.length = 1
    ∧ (∀ n : ℕ, (ImpVolDemo.rootFinderTrace n).length = n)
    ∧ ImpVolDemo.impVolTrace.length = 3 :=
  ⟨rfl, rfl, fun n => by simp [ImpVolDemo.rootFinderTrace], rfl⟩
